import Mathlib

/-!
Verification development for TensorClad: a rule-driven static-analysis
engine for LLM-integrated applications, together with the Python fixture
files shipped in the repository (`src/examples/test_vulnerable.py` and
`src/examples/threat_vectors_python.py`).

Strings of source text and string values are modelled as `List Char`, so
that every operation of the model is an executable Lean function.
-/

/-- Characters of a piece of source text or of a string value. -/
abbrev Str := List Char

namespace TensorClad

/-!  ## The fixture helper `sanitize_input`

`src/examples/test_vulnerable.py`, lines 88-95:

```
def sanitize_input(text: str) -> str:
    dangerous_patterns = ["ignore previous", "system:", "\\n\\n"]
    cleaned = text
    for pattern in dangerous_patterns:
        cleaned = cleaned.replace(pattern, "")
    return cleaned[:500]  # Limit length
```
-/

/-- Worker for `removeAll`.  The `fuel` argument only makes the recursion
structural (each step consumes at least one character of `s` and one unit
of fuel, and `removeAll` supplies `s.length`); it does not change the
computed value. -/
def removeAllAux (p : Str) : Nat → Str → Str
  | _, [] => []
  | 0, s => s
  | fuel + 1, c :: rest =>
    match p with
    | [] => c :: rest
    | q :: qs =>
      if (q :: qs).isPrefixOf (c :: rest) then
        removeAllAux (q :: qs) fuel (rest.drop qs.length)
      else
        c :: removeAllAux (q :: qs) fuel rest

/-- Python `s.replace(p, "")` for a pattern `p`: scan left to right and
delete every non-overlapping occurrence of `p`.  All patterns used by the
source are nonempty; for `p = []` we return `s` unchanged. -/
def removeAll (p s : Str) : Str :=
  removeAllAux p s.length s

/-- The three dangerous patterns removed by `sanitize_input`
(the Python literal `"\\n\\n"` is the four characters backslash, `n`,
backslash, `n`). -/
def dangerous_patterns : List Str :=
  ["ignore previous".toList, "system:".toList, "\\n\\n".toList]

/-- The value of the Python variable `cleaned` after the `for` loop:
one `replace` pass per dangerous pattern, in list order. -/
def cleaned_full (text : Str) : Str :=
  dangerous_patterns.foldl (fun cleaned p => removeAll p cleaned) text

/-- `sanitize_input` from `src/examples/test_vulnerable.py`: the removal
passes followed by truncation to the first 500 characters. -/
def sanitize_input (text : Str) : Str :=
  (cleaned_full text).take 500

/-- One removal pass never lengthens the string. -/
theorem length_removeAllAux_le (p : Str) :
    ∀ (fuel : Nat) (s : Str), (removeAllAux p fuel s).length ≤ s.length := by
  intro fuel
  induction fuel with
  | zero =>
    intro s
    cases s <;> simp [removeAllAux]
  | succ n ih =>
    intro s
    cases s with
    | nil => simp [removeAllAux]
    | cons c rest =>
      cases p with
      | nil => simp [removeAllAux]
      | cons q qs =>
        by_cases hpre : (q :: qs).isPrefixOf (c :: rest)
        · simp only [removeAllAux, if_pos hpre]
          calc (removeAllAux (q :: qs) n (rest.drop qs.length)).length
              ≤ (rest.drop qs.length).length := ih _
            _ ≤ rest.length := by simp
            _ ≤ (c :: rest).length := by simp
        · simp only [removeAllAux, if_neg hpre, List.length_cons]
          exact Nat.succ_le_succ (ih rest)

/-- If the (nonempty) pattern occurs in `s` and the fuel covers `s`, one
removal pass strictly shortens `s`. -/
theorem length_removeAllAux_lt (q : Char) (qs : Str) :
    ∀ (fuel : Nat) (s : Str), s.length ≤ fuel → (q :: qs) <:+: s →
      (removeAllAux (q :: qs) fuel s).length < s.length := by
  intro fuel
  induction fuel with
  | zero =>
    intro s hle hocc
    have hnil : s = [] := List.length_eq_zero.1 (Nat.le_zero.1 hle)
    subst hnil
    simp [ List.infix_nil] at hocc
  | succ n ih =>
    intro s hle hocc
    cases s with
    | nil => simp [ List.infix_nil] at hocc
    | cons c rest =>
      by_cases hpre : (q :: qs).isPrefixOf (c :: rest)
      · simp only [removeAllAux, if_pos hpre]
        calc (removeAllAux (q :: qs) n (rest.drop qs.length)).length
            ≤ (rest.drop qs.length).length := length_removeAllAux_le _ _ _
          _ ≤ rest.length := by simp
          _ < (c :: rest).length := by simp
      · simp only [removeAllAux, if_neg hpre, List.length_cons]
        have hrest : (q :: qs) <:+: rest := by
          rcases (List.infix_cons_iff).1 hocc with hp | hr
          · exact absurd ((List.isPrefixOf_iff_prefix).2 hp) hpre
          · exact hr
        have hle' : rest.length ≤ n := by simpa using hle
        exact Nat.succ_lt_succ (ih rest hle' hrest)

/-- A string unchanged by a removal pass contains no occurrence of that
(nonempty) pattern. -/
theorem not_infix_of_removeAll_fix (q : Char) (qs s : Str)
    (hfix : removeAll (q :: qs) s = s) : ¬ (q :: qs) <:+: s := by
  intro hocc
  have hlt := length_removeAllAux_lt q qs s.length s (Nat.le_refl _) hocc
  rw [show removeAllAux (q :: qs) s.length s = removeAll (q :: qs) s from rfl, hfix] at hlt
  exact Nat.lt_irrefl _ hlt

/-- C10: for every input string, `sanitize_input` returns a string of
length at most 500 characters. -/
theorem sanitize_input_length_le_500 (text : Str) :
    (sanitize_input text).length ≤ 500 := by
  simp [sanitize_input, List.length_take]

/-- Counterexample to C9: on the input `"ignoreignore previous previous"`,
the single left-to-right `replace` pass deletes the middle occurrence of
`"ignore previous"` and thereby splices the surrounding text into a fresh
occurrence, so the returned string still contains a dangerous pattern. -/
theorem sanitize_input_counterexample :
    "ignore previous".toList ∈ dangerous_patterns ∧
      "ignore previous".toList <:+:
        sanitize_input ("ignoreignore previous previous".toList) := by
  constructor
  · simp [dangerous_patterns]
  · decide

/-- C9 (amended): for every input string on which the three removal passes
have reached a fixed point (re-running each pass changes nothing — i.e. no
deletion spliced surrounding text into a new occurrence), the string
returned by `sanitize_input` contains no occurrence of any of the three
dangerous patterns. -/
theorem sanitize_input_no_dangerous_of_fix (text : Str)
    (hfix : ∀ p ∈ dangerous_patterns, removeAll p (cleaned_full text) = cleaned_full text) :
    ∀ p ∈ dangerous_patterns, ¬ p <:+: sanitize_input text := by
  intro p hp hocc
  have hocc' : p <:+: cleaned_full text :=
    List.IsInfix.trans hocc (List.IsPrefix.isInfix (List.take_prefix _ _))
  have hne : p ≠ [] := by
    simp only [dangerous_patterns, List.mem_cons, List.not_mem_nil, or_false] at hp
    rcases hp with rfl | rfl | rfl <;> decide
  cases p with
  | nil => exact absurd rfl hne
  | cons q qs => exact not_infix_of_removeAll_fix q qs _ (hfix _ hp) hocc'

/-- Witness for the amended C9 at the concrete input `"hello"`. -/
theorem sanitize_input_no_dangerous_witness :
    (∀ p ∈ dangerous_patterns, removeAll p (cleaned_full ("hello".toList)) = cleaned_full ("hello".toList)) ∧
      ∀ p ∈ dangerous_patterns, ¬ p <:+: sanitize_input ("hello".toList) :=
  ⟨by decide, sanitize_input_no_dangerous_of_fix ("hello".toList) (by decide)⟩

/-!  ## The scanning engine

The repository ships no scanner implementation — only the two Python
fixture files.  Every definition below therefore carries a doc comment
starting `Modelled from the spec:` and embeds the corresponding contract
of `spec.md` (sections 3-4.7).
-/

/-- Modelled from the spec: rule severity (section 3); the implementation
is absent from the repository. -/
inductive Severity where
  | critical
  | high
  | medium
  | low
deriving DecidableEq

/-- Modelled from the spec: numeric rank of a severity, with `critical`
first, so that ascending rank is descending severity. -/
def Severity.rank : Severity → Nat
  | .critical => 0
  | .high => 1
  | .medium => 2
  | .low => 3

/-- Modelled from the spec: rule category (section 3); the implementation
is absent from the repository. -/
inductive Category where
  | secret
  | injection
  | hardcodedPrompt
  | outputValidation
  | rag
  | pii
  | toolExec
  | credentialExposure
  | rateLimit
deriving DecidableEq

/-- Modelled from the spec: a Finding (section 3) — rule id, category,
severity, file, span and optional taint path.  Spans are line numbers;
statements of the modelled language occupy one line each, so every span
recorded in a Finding is already normalized to its innermost enclosing
statement. -/
structure Finding where
  ruleId : String
  category : Category
  severity : Severity
  file : String
  span : Nat
  path : List Nat
deriving DecidableEq

/-- Modelled from the spec: one part of an f-string — a literal chunk or
an interpolated variable reference. -/
inductive Piece where
  | lit (chunk : Str)
  | ref (name : String)
deriving DecidableEq

/-- Modelled from the spec: one call argument — a variable reference or a
string literal. -/
inductive Arg where
  | avar (name : String)
  | alit (value : Str)
deriving DecidableEq

/-- Modelled from the spec: an expression of the Source Model (section 3)
— string literal, variable, f-string interpolation, or call. -/
inductive Expr where
  | strLit (value : Str)
  | var (name : String)
  | interp (pieces : List Piece)
  | call (fn : String) (args : List Arg)
deriving DecidableEq

/-- Modelled from the spec: a statement of the Source Model — an
assignment or a bare expression, with its line as span. -/
inductive Stmt where
  | assign (name : String) (rhs : Expr) (line : Nat)
  | exprStmt (e : Expr) (line : Nat)
deriving DecidableEq

/-- The span (line) of a statement. -/
def Stmt.line : Stmt → Nat
  | .assign _ _ l => l
  | .exprStmt _ l => l

/-- Modelled from the spec: a function definition — name, parameters with
their declaration lines, and body statements (the function's own scope). -/
structure FuncDef where
  name : String
  params : List (String × Nat)
  body : List Stmt
deriving DecidableEq

/-- Modelled from the spec: a SourceUnit (section 3) — module-scope
statements plus function definitions. -/
structure SourceUnit where
  moduleStmts : List Stmt
  funcs : List FuncDef
deriving DecidableEq

/-- Modelled from the spec: the read-only scan configuration — taint
source/sink/sanitizer catalogs (section 4.6), the untrusted-parameter
name heuristic (section 4.2) and the secret catalogs (section 4.5).
`entropyHigh` stands in for the configured Shannon-entropy bound: the
real-valued entropy test is abstracted as an arbitrary boolean test
supplied by the configuration. -/
structure Config where
  sources : List String
  sinks : List (String × Category)
  sanitizers : List String
  paramMarkers : List Str
  secretCatalog : List (String × Str)
  minSecretLen : Nat
  credMarkers : List Str
  entropyHigh : Str → Bool

/-- Does pattern `p` occur as a contiguous substring of `s`? -/
def subOf (p s : Str) : Bool :=
  s.tails.any (fun t => p.isPrefixOf t)

/-- Modelled from the spec: the untrusted-parameter heuristic of section
4.2 — a parameter name matching a configured marker substring. -/
def isUntrustedName (cfg : Config) (name : String) : Bool :=
  cfg.paramMarkers.any (fun m => subOf m name.toList)

/-- Modelled from the spec: the credential-like-name heuristic of section
4.5, case-insensitive. -/
def credentialName (cfg : Config) (name : String) : Bool :=
  cfg.credMarkers.any (fun m => subOf m (name.toList.map Char.toLower))

/-- A character that may appear in a provider API key. -/
def isKeyChar (c : Char) : Bool :=
  c.isAlphanum || c == '-' || c == '_'

/-- Modelled from the spec: the prefix-signature check of section 4.5 —
the first catalog entry whose provider prefix starts the literal, followed
by at least 20 key characters, yields its rule id. -/
def prefixHit : List (String × Str) → Str → Option String
  | [], _ => none
  | (rid, pre) :: rest, lit =>
    if pre.isPrefixOf lit ∧ 20 ≤ (lit.drop pre.length).length ∧ (lit.drop pre.length).all isKeyChar then
      some rid
    else
      prefixHit rest lit

/-- Rule id of the fallback entropy secret rule. -/
def entropyRuleId : String := "TC-SECRET-ENTROPY"

/-- Modelled from the spec: the Secret Scanner's per-literal check
(section 4.5).  The prefix-signature check and the entropy check are
mutually exclusive per literal (section 9 fixes this policy), so a literal
triggers at most one Finding. -/
def checkLiteral (cfg : Config) (file : String) (name : String) (lit : Str) (line : Nat) : List Finding :=
  match prefixHit cfg.secretCatalog lit with
  | some rid => [⟨rid, .secret, .critical, file, line, []⟩]
  | none =>
    if credentialName cfg name ∧ cfg.minSecretLen ≤ lit.length ∧ cfg.entropyHigh lit then
      [⟨entropyRuleId, .secret, .high, file, line, []⟩]
    else
      []

/-- Modelled from the spec: the Secret Scanner over the string-literal
assignments of a statement list (section 4.5). -/
def secretScan (cfg : Config) (file : String) : List Stmt → List Finding
  | [] => []
  | .assign name (.strLit v) line :: rest => checkLiteral cfg file name v line ++ secretScan cfg file rest
  | _ :: rest => secretScan cfg file rest

/-- Modelled from the spec: the flow-insensitive taint table of one scope
(section 4.2/4.6) — each tainted Symbol with its lineage of spans. -/
abbrev TaintState := List (String × List Nat)

/-- Lookup of a symbol's taint lineage. -/
def lookupT (n : String) : TaintState → Option (List Nat)
  | [] => none
  | (m, p) :: rest => if n = m then some p else lookupT n rest

/-- Modelled from the spec: marking a Symbol tainted.  A Symbol already
tainted keeps its recorded lineage (taint is never cleared and the first
recorded origin is kept for deterministic output). -/
def insertTaint (n : String) (path : List Nat) (st : TaintState) : TaintState :=
  match lookupT n st with
  | some _ => st
  | none => (n, path) :: st

/-- Taint lineage reaching a call argument, if any. -/
def argPath (st : TaintState) : Arg → Option (List Nat)
  | .avar n => lookupT n st
  | .alit _ => none

/-- First tainted argument of a call, in argument order. -/
def firstArgPath (st : TaintState) : List Arg → Option (List Nat)
  | [] => none
  | a :: rest =>
    match argPath st a with
    | some p => some p
    | none => firstArgPath st rest

/-- Taint lineage reaching one f-string piece, if any. -/
def piecePath (st : TaintState) : Piece → Option (List Nat)
  | .lit _ => none
  | .ref n => lookupT n st

/-- First tainted piece of an f-string, in document order. -/
def firstPiecePath (st : TaintState) : List Piece → Option (List Nat)
  | [] => none
  | p :: rest =>
    match piecePath st p with
    | some q => some q
    | none => firstPiecePath st rest

/-- Modelled from the spec: the taint carried by a right-hand side
(section 4.6).  A string interpolation referencing a tainted Symbol
carries that Symbol's lineage; the result of a call carries no taint from
its arguments (intraprocedural boundary). -/
def rhsTaintPath (st : TaintState) : Expr → Option (List Nat)
  | .strLit _ => none
  | .var n => lookupT n st
  | .interp ps => firstPiecePath st ps
  | .call _ _ => none

/-- Modelled from the spec: rule id under which a taint reach at a sink of
a given category is filed (section 4.6). -/
def ruleIdFor : Category → String
  | .secret => "TC-SECRET"
  | .injection => "TC-INJECTION"
  | .hardcodedPrompt => "TC-HARDCODED-PROMPT"
  | .outputValidation => "TC-OUTPUT-VALIDATION"
  | .rag => "TC-RAG"
  | .pii => "TC-PII-LOG"
  | .toolExec => "TC-TOOL-EXEC"
  | .credentialExposure => "TC-CREDENTIAL-EXPOSURE"
  | .rateLimit => "TC-RATE-LIMIT"

/-- Modelled from the spec: severity under which each category is filed. -/
def severityFor : Category → Severity
  | .secret => .critical
  | .injection => .critical
  | .hardcodedPrompt => .low
  | .outputValidation => .high
  | .rag => .high
  | .pii => .medium
  | .toolExec => .critical
  | .credentialExposure => .high
  | .rateLimit => .low

/-- Modelled from the spec: the sink check of section 4.6 — if the called
name is a configured sink and a tainted value reaches an argument, one
Finding fires, recording the path seed span → intermediate assignment
spans → sink call span. -/
def sinkFindings (cfg : Config) (file : String) (st : TaintState) (fn : String) (args : List Arg) (line : Nat) : List Finding :=
  match cfg.sinks.lookup fn with
  | some cat =>
    match firstArgPath st args with
    | some path => [⟨ruleIdFor cat, cat, severityFor cat, file, line, path ++ [line]⟩]
    | none => []
  | none => []

/-- Modelled from the spec: one forward-propagation step of the Taint
Analysis Engine (section 4.6) over a statement, in document order.
An assignment from a source call taints the target; an assignment from an
interpolation referencing a tainted Symbol extends that Symbol's lineage;
the result of any other call — sanitizer-allow-listed or user-defined —
is treated as untainted (no taint crosses a call, and a sanitizer's
result is untainted even if its argument was tainted).  Taint already
recorded is never cleared. -/
def stepStmt (cfg : Config) (file : String) (st : TaintState) : Stmt → TaintState × List Finding
  | .assign name rhs line =>
    match rhs with
    | .call fn args =>
      if fn ∈ cfg.sources then
        (insertTaint name [line] st, sinkFindings cfg file st fn args line)
      else
        (st, sinkFindings cfg file st fn args line)
    | _ =>
      match rhsTaintPath st rhs with
      | some path => (insertTaint name (path ++ [line]) st, [])
      | none => (st, [])
  | .exprStmt e line =>
    match e with
    | .call fn args => (st, sinkFindings cfg file st fn args line)
    | _ => (st, [])

/-- Modelled from the spec: the worklist forward-propagation of section
4.6 over the statements of one scope, in document order, accumulating the
Findings of every step. -/
def runStmts (cfg : Config) (file : String) : TaintState → List Stmt → TaintState × List Finding
  | st, [] => (st, [])
  | st, s :: rest =>
    ((runStmts cfg file (stepStmt cfg file st s).1 rest).1,
      (stepStmt cfg file st s).2 ++ (runStmts cfg file (stepStmt cfg file st s).1 rest).2)

/-- Modelled from the spec: the initial taint table of one function scope
(section 4.2) — parameters matching the untrusted-source heuristic are
pre-seeded tainted, with their declaration span as lineage seed. -/
def initState (cfg : Config) (params : List (String × Nat)) : TaintState :=
  params.foldl (fun st pr => if isUntrustedName cfg pr.1 then insertTaint pr.1 [pr.2] st else st) []

/-- Modelled from the spec: the intraprocedural taint analysis of one
function (section 4.6): seed the parameter taint, then propagate through
the body in document order. -/
def analyzeFunc (cfg : Config) (file : String) (fd : FuncDef) : List Finding :=
  (runStmts cfg file (initState cfg fd.params) fd.body).2

/-- All spans belonging to a function definition: its parameter
declaration lines and its body statement lines. -/
def funcLines (fd : FuncDef) : List Nat :=
  fd.params.map Prod.snd ++ fd.body.map Stmt.line

/-- Modelled from the spec: the dedup key of a Finding (section 3) —
rule id, file and normalized span; spans in this model are already
statement-normalized. -/
def dedupKeyOf (f : Finding) : String × String × Nat :=
  (f.ruleId, f.file, f.span)

/-- Modelled from the spec: deduplication of section 4.7 — keep the first
Finding for each dedup key. -/
def dedupGo (seen : List (String × String × Nat)) : List Finding → List Finding
  | [] => []
  | f :: rest =>
    if dedupKeyOf f ∈ seen then
      dedupGo seen rest
    else
      f :: dedupGo (dedupKeyOf f :: seen) rest

/-- Deduplicate a result set by dedup key. -/
def dedup (fs : List Finding) : List Finding :=
  dedupGo [] fs

/-- Modelled from the spec: the total ordering key of section 4.7 —
severity descending (ascending rank), then file, then line ascending,
compared lexicographically. -/
def sortKey (f : Finding) : Lex (Nat × Lex (String × Nat)) :=
  toLex (f.severity.rank, toLex (f.file, f.span))

/-- The aggregator's ordering on Findings. -/
def findingLE (a b : Finding) : Prop :=
  sortKey a ≤ sortKey b

instance : DecidableRel findingLE :=
  fun a b => inferInstanceAs (Decidable (sortKey a ≤ sortKey b))

instance : IsTotal Finding findingLE :=
  ⟨fun a b => le_total (sortKey a) (sortKey b)⟩

instance : IsTrans Finding findingLE :=
  ⟨fun _ _ _ hab hbc => le_trans hab hbc⟩

/-- Modelled from the spec: the Finding Aggregator (section 4.7) —
deduplicate by (rule id, file, normalized span), then sort by severity
descending, file, line ascending. -/
def aggregate (fs : List Finding) : List Finding :=
  List.insertionSort findingLE (dedup fs)

/-- Modelled from the spec: scanning one SourceUnit (section 2) — the
Secret Scanner over module statements, the Taint Analysis Engine over the
module scope (no seeded parameters) and over each function scope, results
packaged by the Aggregator. -/
def scanUnit (cfg : Config) (file : String) (u : SourceUnit) : List Finding :=
  aggregate (secretScan cfg file u.moduleStmts ++ (runStmts cfg file [] u.moduleStmts).2 ++ (u.funcs.map (analyzeFunc cfg file)).flatten)

/-!  ## The Source Model parser

Modelled from the spec, section 4.1: `parse(text) -> SourceUnit`, failing
with `ParseError{reason, location}` on malformed input.  The modelled
grammar is line-based: a line is blank, a comment, a `def name(params):`
header, an assignment `name = expr`, or a bare call; indented lines form
the body of the preceding function definition.  Expressions are string
literals, f-strings with `{var}` interpolations, calls with atomic
arguments, and variables.
-/

/-- Modelled from the spec: `ParseError{reason, location}` of section 4.1. -/
structure ParseError where
  reason : String
  location : Nat
deriving DecidableEq

/-- A character allowed in an identifier (dotted names included). -/
def isIdentChar (c : Char) : Bool :=
  c.isAlphanum || c == '_' || c == '.'

/-- Drop leading spaces. -/
def skipSp (s : Str) : Str :=
  s.dropWhile (fun c => c == ' ')

/-- Parse one atomic call argument: a quoted string or an identifier. -/
def parseAtomArg (s : Str) : Option (Arg × Str) :=
  match skipSp s with
  | '"' :: rest =>
    match rest.dropWhile (fun c => c != '"') with
    | '"' :: r => some (.alit (rest.takeWhile (fun c => c != '"')), r)
    | _ => none
  | t =>
    if (t.takeWhile isIdentChar).isEmpty then
      none
    else
      some (.avar (String.mk (t.takeWhile isIdentChar)), t.dropWhile isIdentChar)

/-- Parse a `)`-terminated comma-separated argument list.  The fuel only
makes the recursion structural; callers supply the remaining length. -/
def parseArgs : Nat → Str → Option (List Arg × Str)
  | 0, _ => none
  | fuel + 1, s =>
    match skipSp s with
    | ')' :: r => some ([], r)
    | t =>
      match parseAtomArg t with
      | none => none
      | some (a, r) =>
        match skipSp r with
        | ',' :: r' =>
          match parseArgs fuel r' with
          | some (as, r'') => some (a :: as, r'')
          | none => none
        | ')' :: r' => some ([a], r')
        | _ => none

/-- Parse the pieces of an f-string up to the closing quote.  The fuel
only makes the recursion structural. -/
def parsePieces : Nat → Str → Option (List Piece × Str)
  | 0, _ => none
  | fuel + 1, s =>
    match s with
    | [] => none
    | '"' :: r => some ([], r)
    | '{' :: r =>
      match r.dropWhile isIdentChar with
      | '}' :: r'' =>
        if (r.takeWhile isIdentChar).isEmpty then
          none
        else
          match parsePieces fuel r'' with
          | some (ps, rr) => some (.ref (String.mk (r.takeWhile isIdentChar)) :: ps, rr)
          | none => none
      | _ => none
    | _ :: _ =>
      match parsePieces fuel (s.dropWhile (fun c => c != '"' && c != '{')) with
      | some (ps, rr) => some (.lit (s.takeWhile (fun c => c != '"' && c != '{')) :: ps, rr)
      | none => none

/-- Parse one expression: string literal, f-string, call or variable. -/
def parseExprT (s : Str) : Option (Expr × Str) :=
  match skipSp s with
  | '"' :: rest =>
    match rest.dropWhile (fun c => c != '"') with
    | '"' :: r => some (.strLit (rest.takeWhile (fun c => c != '"')), r)
    | _ => none
  | 'f' :: '"' :: rest =>
    match parsePieces rest.length rest with
    | some (ps, r) => some (.interp ps, r)
    | none => none
  | t =>
    if (t.takeWhile isIdentChar).isEmpty then
      none
    else
      match skipSp (t.dropWhile isIdentChar) with
      | '(' :: r =>
        match parseArgs r.length r with
        | some (as, r') => some (.call (String.mk (t.takeWhile isIdentChar)) as, r')
        | none => none
      | _ => some (.var (String.mk (t.takeWhile isIdentChar)), t.dropWhile isIdentChar)

/-- Parse one (already de-indented) statement line. -/
def parseStmtLine (ln : Nat) (t : Str) : Except ParseError Stmt :=
  if (t.takeWhile isIdentChar).isEmpty then
    .error ⟨"unrecognized statement", ln⟩
  else
    match skipSp (t.dropWhile isIdentChar) with
    | '=' :: r =>
      match parseExprT r with
      | some (e, r') =>
        if (skipSp r').isEmpty then
          .ok (.assign (String.mk (t.takeWhile isIdentChar)) e ln)
        else
          .error ⟨"trailing characters after expression", ln⟩
      | none => .error ⟨"malformed expression", ln⟩
    | '(' :: r =>
      match parseArgs r.length r with
      | some (as, r') =>
        if (skipSp r').isEmpty then
          .ok (.exprStmt (.call (String.mk (t.takeWhile isIdentChar)) as) ln)
        else
          .error ⟨"trailing characters after call", ln⟩
      | none => .error ⟨"malformed call arguments", ln⟩
    | [] => .ok (.exprStmt (.var (String.mk (t.takeWhile isIdentChar))) ln)
    | _ => .error ⟨"unrecognized statement", ln⟩

/-- Turn a parsed argument list into parameter declarations (identifiers
only), all declared on the header line. -/
def argsToParams (ln : Nat) : List Arg → Option (List (String × Nat))
  | [] => some []
  | .avar n :: rest => (argsToParams ln rest).map (fun ps => (n, ln) :: ps)
  | .alit _ :: _ => none

/-- Parse a function header after the `def ` keyword: `name(params):`. -/
def parseHeader (ln : Nat) (t : Str) : Except ParseError (String × List (String × Nat)) :=
  if ((skipSp t).takeWhile isIdentChar).isEmpty then
    .error ⟨"malformed function header", ln⟩
  else
    match skipSp ((skipSp t).dropWhile isIdentChar) with
    | '(' :: r =>
      match parseArgs r.length r with
      | some (as, r') =>
        match skipSp r' with
        | ':' :: r'' =>
          if (skipSp r'').isEmpty then
            match argsToParams ln as with
            | some ps => .ok (String.mk ((skipSp t).takeWhile isIdentChar), ps)
            | none => .error ⟨"malformed parameter list", ln⟩
          else
            .error ⟨"trailing characters after header", ln⟩
        | _ => .error ⟨"missing colon in function header", ln⟩
      | none => .error ⟨"malformed parameter list", ln⟩
    | _ => .error ⟨"malformed function header", ln⟩

/-- Intermediate state of the line-by-line unit builder. -/
structure PState where
  moduleStmts : List Stmt
  funcs : List FuncDef
  current : Option FuncDef
deriving DecidableEq

/-- Close the function definition currently being collected, if any. -/
def flushCurrent (ps : PState) : PState :=
  match ps.current with
  | some fd => { ps with funcs := ps.funcs ++ [fd], current := none }
  | none => ps

/-- Feed one numbered raw line to the unit builder. -/
def feedLine (ps : PState) (ln : Nat) (line : Str) : Except ParseError PState :=
  match skipSp line with
  | [] => .ok ps
  | '#' :: _ => .ok ps
  | t =>
    match line with
    | ' ' :: _ =>
      match ps.current with
      | some fd =>
        match parseStmtLine ln t with
        | .ok st => .ok { ps with current := some { fd with body := fd.body ++ [st] } }
        | .error e => .error e
      | none => .error ⟨"indented statement outside a function", ln⟩
    | _ =>
      if ("def ".toList).isPrefixOf t then
        match parseHeader ln (t.drop 4) with
        | .ok (n, params) => .ok { flushCurrent ps with current := some ⟨n, params, []⟩ }
        | .error e => .error e
      else
        match parseStmtLine ln t with
        | .ok st =>
          .ok { flushCurrent ps with moduleStmts := (flushCurrent ps).moduleStmts ++ [st] }
        | .error e => .error e

/-- Feed a list of numbered lines in order, stopping at the first error. -/
def feedLines (ps : PState) : List (Nat × Str) → Except ParseError PState
  | [] => .ok ps
  | (ln, l) :: rest =>
    match feedLine ps ln l with
    | .ok ps' => feedLines ps' rest
    | .error e => .error e

/-- Modelled from the spec: `parse(text) -> SourceUnit` (section 4.1),
line-based, deterministic, failing with `ParseError{reason, location}` on
the first malformed line. -/
def parseUnit (text : Str) : Except ParseError SourceUnit :=
  match feedLines ⟨[], [], none⟩ ((text.splitOn '\n').enum.map (fun pr => (pr.1 + 1, pr.2))) with
  | .ok ps => .ok ⟨(flushCurrent ps).moduleStmts, (flushCurrent ps).funcs⟩
  | .error e => .error e

instance : DecidableEq (Except ParseError SourceUnit) := fun a b =>
  match a, b with
  | .ok u, .ok v =>
    if h : u = v then isTrue (by rw [h]) else isFalse (fun hc => h (Except.ok.inj hc))
  | .ok _, .error _ => isFalse (fun hc => Except.noConfusion hc)
  | .error _, .ok _ => isFalse (fun hc => Except.noConfusion hc)
  | .error e, .error e' =>
    if h : e = e' then isTrue (by rw [h]) else isFalse (fun hc => h (Except.error.inj hc))

/-- Modelled from the spec: the per-file scan result (section 7) — the
file's Findings, whether the file was fully scanned, and any diagnostics,
so that callers can surface scan completeness. -/
structure FileResult where
  path : String
  findings : List Finding
  complete : Bool
  diagnostics : List ParseError
deriving DecidableEq

/-- Modelled from the spec: scanning one (path, text) pair (sections 4.1
and 7): on a parse failure the file is marked not fully scanned and the
ParseError is surfaced as a diagnostic; the batch is unaffected. -/
def scanFile (cfg : Config) (input : String × Str) : FileResult :=
  match parseUnit input.2 with
  | .ok u => ⟨input.1, scanUnit cfg input.1 u, true, []⟩
  | .error e => ⟨input.1, [], false, [e]⟩

/-- Modelled from the spec: scanning a batch of (path, text) pairs
(section 5) — each file independently. -/
def scanBatch (cfg : Config) (files : List (String × Str)) : List FileResult :=
  files.map (scanFile cfg)

/-- Number of distinct characters of a literal — the stand-in measure for
the configured entropy bound of `stdConfig`. -/
def distinctCount : Str → Nat
  | [] => 0
  | c :: rest => (if c ∈ rest then 0 else 1) + distinctCount rest

/-- Modelled from the spec: a concrete rule/catalog configuration in the
spirit of the fixture files — `input` as taint source, the usual LLM and
execution sinks, `sanitize_input` allow-listed as sanitizer, the
provider key prefixes of section 4.5 and the untrusted-name heuristics of
section 4.2.  Longer provider prefixes come first so the most specific
signature wins.  The entropy bound is modelled as a character-diversity
threshold (`distinctCount`). -/
def stdConfig : Config where
  sources := ["input"]
  sinks := [("openai.ChatCompletion.create", .injection), ("eval", .toolExec), ("exec", .toolExec), ("os.system", .toolExec), ("cursor.execute", .toolExec), ("vectorstore.similarity_search", .rag), ("print", .pii)]
  sanitizers := ["sanitize_input"]
  paramMarkers := ["input".toList, "request".toList, "query".toList, "user".toList]
  secretCatalog := [("TC001-OPENAI-PROJECT-KEY", "sk-proj-".toList), ("TC002-ANTHROPIC-KEY", "sk-ant-".toList), ("TC003-OPENAI-KEY", "sk-".toList)]
  minSecretLen := 20
  credMarkers := ["key".toList, "token".toList, "secret".toList]
  entropyHigh := fun lit => 16 ≤ distinctCount lit

/-!  ## Claim theorems -/

/-- C1: scanning the same file twice with the same rule configuration
yields identical ordered Finding sequences, and re-parsing the same text
yields the same tree with the same spans.  In this embedding the whole
pipeline is a pure function of (configuration, path, text), so two runs on
equal inputs are definitionally equal. -/
theorem scan_deterministic (cfg : Config) (path : String) (text : Str)
    (r1 r2 : FileResult) (t1 t2 : Except ParseError SourceUnit)
    (h1 : r1 = scanFile cfg (path, text)) (h2 : r2 = scanFile cfg (path, text))
    (h3 : t1 = parseUnit text) (h4 : t2 = parseUnit text) :
    r1 = r2 ∧ t1 = t2 :=
  ⟨h1.trans h2.symm, h3.trans h4.symm⟩

/-- Witness for C1 at a concrete file. -/
theorem scan_deterministic_witness :
    scanFile stdConfig ("a.py", "x = input()".toList) = scanFile stdConfig ("a.py", "x = input()".toList) ∧
      parseUnit ("x = input()".toList) = parseUnit ("x = input()".toList) :=
  scan_deterministic stdConfig "a.py" ("x = input()".toList) _ _ _ _ rfl rfl rfl rfl

/-- A Finding surviving deduplication has a key outside the accumulator of
already-seen keys. -/
theorem dedupGo_key_not_seen :
    ∀ (l : List Finding) (seen : List (String × String × Nat)) (g : Finding),
      g ∈ dedupGo seen l → dedupKeyOf g ∉ seen := by
  intro l
  induction l with
  | nil =>
    intro seen g hg
    simp [dedupGo] at hg
  | cons f rest ih =>
    intro seen g hg
    by_cases hf : dedupKeyOf f ∈ seen
    · rw [dedupGo, if_pos hf] at hg
      exact ih seen g hg
    · rw [dedupGo, if_neg hf] at hg
      rcases List.mem_cons.1 hg with rfl | hg'
      · exact hf
      · intro hmem
        exact ih _ g hg' (List.mem_cons_of_mem _ hmem)

/-- Deduplication yields pairwise-distinct dedup keys. -/
theorem dedupGo_pairwise :
    ∀ (l : List Finding) (seen : List (String × String × Nat)),
      List.Pairwise (fun a b => dedupKeyOf a ≠ dedupKeyOf b) (dedupGo seen l) := by
  intro l
  induction l with
  | nil =>
    intro seen
    simp [dedupGo]
  | cons f rest ih =>
    intro seen
    by_cases hf : dedupKeyOf f ∈ seen
    · rw [dedupGo, if_pos hf]
      exact ih seen
    · rw [dedupGo, if_neg hf]
      refine List.Pairwise.cons ?_ (ih _)
      intro b hb
      have hnot := dedupGo_key_not_seen rest _ b hb
      intro he
      exact hnot (he ▸ List.mem_cons_self _ _)

/-- C2: in every result set returned by the Finding Aggregator, any two
Findings at distinct positions have distinct dedup keys
(rule id, file, normalized span). -/
theorem aggregate_keys_distinct (fs : List Finding) :
    List.Pairwise (fun a b => dedupKeyOf a ≠ dedupKeyOf b) (aggregate fs) := by
  have hperm := List.perm_insertionSort findingLE (dedup fs)
  exact (List.Perm.pairwise_iff (fun h => Ne.symm h) hperm).2 (dedupGo_pairwise fs [])

/-- C8: the sequence returned by the Finding Aggregator is sorted by the
total order (severity descending, then file, then line ascending): every
Finding's key is less than or equal to the key of every later Finding, so
in particular of the next one, whatever order results were collected in. -/
theorem aggregate_sorted (fs : List Finding) :
    List.Sorted findingLE (aggregate fs) :=
  List.sorted_insertionSort findingLE (dedup fs)

/-- Marking one Symbol tainted keeps every previously tainted Symbol
tainted. -/
theorem lookupT_insertTaint_mono (n m : String) (path : List Nat) (st : TaintState)
    (h : (lookupT m st).isSome = true) :
    (lookupT m (insertTaint n path st)).isSome = true := by
  unfold insertTaint
  cases hl : lookupT n st with
  | some _ => exact h
  | none =>
    by_cases he : m = n
    · simp [lookupT, he]
    · simpa [lookupT, he] using h

/-- One propagation step never clears taint. -/
theorem stepStmt_taint_mono (cfg : Config) (file : String) (st : TaintState)
    (s : Stmt) (name : String) (h : (lookupT name st).isSome = true) :
    (lookupT name (stepStmt cfg file st s).1).isSome = true := by
  cases s with
  | assign nm rhs line =>
    cases rhs with
    | call fn args =>
      by_cases hf : fn ∈ cfg.sources
      · simpa [stepStmt, if_pos hf] using lookupT_insertTaint_mono nm name [line] st h
      · simpa [stepStmt, if_neg hf] using h
    | strLit v => simpa [stepStmt, rhsTaintPath] using h
    | var n2 =>
      cases hv : lookupT n2 st with
      | some p =>
        simpa [stepStmt, rhsTaintPath, hv] using lookupT_insertTaint_mono nm name (p ++ [line]) st h
      | none => simpa [stepStmt, rhsTaintPath, hv] using h
    | interp ps =>
      cases hv : firstPiecePath st ps with
      | some p =>
        simpa [stepStmt, rhsTaintPath, hv] using lookupT_insertTaint_mono nm name (p ++ [line]) st h
      | none => simpa [stepStmt, rhsTaintPath, hv] using h
  | exprStmt e line =>
    cases e <;> simpa [stepStmt] using h

/-- C3: taint is monotonic within a scope — once a Symbol is recorded
tainted, it is still tainted after any further run of propagation steps
(first conjunct); and the sole exception of the claim holds as stated:
assigning the result of a sanitizer-allow-listed call leaves the taint
table exactly unchanged, so the call's result is treated as untainted
even if its argument was tainted, while the argument itself stays
tainted (second conjunct). -/
theorem taint_monotonic (cfg : Config) (file : String) :
    (∀ (st : TaintState) (stmts : List Stmt) (name : String),
        (lookupT name st).isSome = true →
        (lookupT name (runStmts cfg file st stmts).1).isSome = true) ∧
      (∀ (st : TaintState) (y san : String) (args : List Arg) (line : Nat),
        san ∈ cfg.sanitizers → san ∉ cfg.sources →
        (stepStmt cfg file st (.assign y (.call san args) line)).1 = st) := by
  constructor
  · intro st stmts
    induction stmts generalizing st with
    | nil =>
      intro name h
      simpa [runStmts] using h
    | cons s rest ih =>
      intro name h
      rw [runStmts]
      exact ih _ _ (stepStmt_taint_mono cfg file st s name h)
  · intro st y san args line _ hnot
    simp [stepStmt, if_neg hnot]

/-- Witness for C3: a concrete tainted Symbol `x` surviving a run, and a
concrete sanitizer assignment leaving the table unchanged. -/
theorem taint_monotonic_witness :
    ((lookupT "x" [("x", [1])]).isSome = true ∧
        (lookupT "x" (runStmts stdConfig "a.py" [("x", [1])]
          [ .assign "y" (.call "sanitize_input" [ .avar "x"]) 2]).1).isSome = true) ∧
      ("sanitize_input" ∈ stdConfig.sanitizers ∧ "sanitize_input" ∉ stdConfig.sources ∧
        (stepStmt stdConfig "a.py" [("x", [1])]
          (.assign "y" (.call "sanitize_input" [ .avar "x"]) 2)).1 = [("x", [1])]) :=
  ⟨⟨by decide, (taint_monotonic stdConfig "a.py").1 _ _ _ (by decide)⟩,
    ⟨by decide, by decide,
      (taint_monotonic stdConfig "a.py").2 _ _ _ _ _ (by decide) (by decide)⟩⟩

/-- Every lineage span recorded in a taint table belongs to the span set
`L`. -/
def pathsIn (L : List Nat) (st : TaintState) : Prop :=
  ∀ pr ∈ st, ∀ sp ∈ pr.2, sp ∈ L

/-- A lineage obtained by lookup satisfies the table's span bound. -/
theorem lookupT_pathsIn {L : List Nat} {st : TaintState} (hst : pathsIn L st)
    (n : String) (p : List Nat) (hl : lookupT n st = some p) :
    ∀ sp ∈ p, sp ∈ L := by
  induction st with
  | nil => simp [lookupT] at hl
  | cons pr rest ih =>
    rw [lookupT] at hl
    by_cases he : n = pr.1
    · rw [if_pos he] at hl
      cases hl
      exact hst pr (List.mem_cons_self _ _)
    · rw [if_neg he] at hl
      exact ih (fun q hq => hst q (List.mem_cons_of_mem _ hq)) hl

/-- A lineage reaching some call argument satisfies the table's span
bound. -/
theorem firstArgPath_pathsIn {L : List Nat} {st : TaintState} (hst : pathsIn L st) :
    ∀ (args : List Arg) (p : List Nat), firstArgPath st args = some p → ∀ sp ∈ p, sp ∈ L := by
  intro args
  induction args with
  | nil =>
    intro p hp
    simp [firstArgPath] at hp
  | cons a rest ih =>
    intro p hp
    rw [firstArgPath] at hp
    cases a with
    | avar n =>
      cases hl : lookupT n st with
      | some q =>
        rw [argPath, hl] at hp
        cases hp
        exact lookupT_pathsIn hst n _ hl
      | none =>
        rw [argPath, hl] at hp
        exact ih p hp
    | alit v =>
      rw [argPath] at hp
      exact ih p hp

/-- A lineage reaching some f-string piece satisfies the table's span
bound. -/
theorem firstPiecePath_pathsIn {L : List Nat} {st : TaintState} (hst : pathsIn L st) :
    ∀ (ps : List Piece) (p : List Nat), firstPiecePath st ps = some p → ∀ sp ∈ p, sp ∈ L := by
  intro ps
  induction ps with
  | nil =>
    intro p hp
    simp [firstPiecePath] at hp
  | cons pc rest ih =>
    intro p hp
    rw [firstPiecePath] at hp
    cases pc with
    | ref n =>
      cases hl : lookupT n st with
      | some q =>
        rw [piecePath, hl] at hp
        cases hp
        exact lookupT_pathsIn hst n _ hl
      | none =>
        rw [piecePath, hl] at hp
        exact ih p hp
    | lit v =>
      rw [piecePath] at hp
      exact ih p hp

/-- A lineage carried by a right-hand side satisfies the table's span
bound. -/
theorem rhsTaintPath_pathsIn {L : List Nat} {st : TaintState} (hst : pathsIn L st)
    (e : Expr) (p : List Nat) (hp : rhsTaintPath st e = some p) :
    ∀ sp ∈ p, sp ∈ L := by
  cases e with
  | strLit v => simp [rhsTaintPath] at hp
  | var n => exact lookupT_pathsIn hst n p hp
  | interp ps => exact firstPiecePath_pathsIn hst ps p hp
  | call fn args => simp [rhsTaintPath] at hp

/-- Inserting a bounded lineage preserves the table's span bound. -/
theorem insertTaint_pathsIn {L : List Nat} {st : TaintState} (hst : pathsIn L st)
    (n : String) (p : List Nat) (hp : ∀ sp ∈ p, sp ∈ L) :
    pathsIn L (insertTaint n p st) := by
  unfold insertTaint
  cases lookupT n st with
  | some _ => exact hst
  | none =>
    intro pr hpr
    rcases List.mem_cons.1 hpr with rfl | hpr'
    · exact hp
    · exact hst pr hpr'

/-- Findings fired at a sink only record spans from the table plus the
sink call's own span. -/
theorem sinkFindings_pathsIn {L : List Nat} {st : TaintState} (hst : pathsIn L st)
    (cfg : Config) (file : String) (fn : String) (args : List Arg) (line : Nat)
    (hline : line ∈ L) :
    ∀ f ∈ sinkFindings cfg file st fn args line, ∀ sp ∈ f.path, sp ∈ L := by
  intro f hf
  unfold sinkFindings at hf
  cases hcat : cfg.sinks.lookup fn with
  | none => simp [hcat] at hf
  | some cat =>
    rw [hcat] at hf
    cases hp : firstArgPath st args with
    | none => simp [hp] at hf
    | some p =>
      rw [hp] at hf
      rcases List.mem_cons.1 hf with rfl | hf'
      · intro sp hsp
        rcases List.mem_append.1 hsp with hsp' | hsp'
        · exact firstArgPath_pathsIn hst args p hp sp hsp'
        · rw [List.mem_singleton.1 hsp']
          exact hline
      · simp at hf'

/-- One propagation step preserves the span bound of the table and emits
only Findings whose paths respect it. -/
theorem stepStmt_pathsIn {L : List Nat} {st : TaintState} (hst : pathsIn L st)
    (cfg : Config) (file : String) (s : Stmt) (hline : s.line ∈ L) :
    pathsIn L (stepStmt cfg file st s).1 ∧
      ∀ f ∈ (stepStmt cfg file st s).2, ∀ sp ∈ f.path, sp ∈ L := by
  cases s with
  | assign nm rhs line =>
    cases rhs with
    | call fn args =>
      by_cases hf : fn ∈ cfg.sources
      · constructor
        · simp only [stepStmt, if_pos hf]
          refine insertTaint_pathsIn hst nm [line] ?_
          intro sp hsp
          rw [List.mem_singleton.1 hsp]
          exact hline
        · simp only [stepStmt, if_pos hf]
          exact sinkFindings_pathsIn hst cfg file fn args line hline
      · constructor
        · simpa [stepStmt, if_neg hf] using hst
        · simp only [stepStmt, if_neg hf]
          exact sinkFindings_pathsIn hst cfg file fn args line hline
    | strLit v =>
      refine ⟨by simpa [stepStmt, rhsTaintPath] using hst, ?_⟩
      simp [stepStmt, rhsTaintPath]
    | var n2 =>
      cases hv : lookupT n2 st with
      | some p =>
        constructor
        · simp only [stepStmt, rhsTaintPath, hv]
          refine insertTaint_pathsIn hst nm (p ++ [line]) ?_
          intro sp hsp
          rcases List.mem_append.1 hsp with hsp' | hsp'
          · exact lookupT_pathsIn hst n2 p hv sp hsp'
          · rw [List.mem_singleton.1 hsp']
            exact hline
        · simp [stepStmt, rhsTaintPath, hv]
      | none =>
        refine ⟨by simpa [stepStmt, rhsTaintPath, hv] using hst, ?_⟩
        simp [stepStmt, rhsTaintPath, hv]
    | interp ps =>
      cases hv : firstPiecePath st ps with
      | some p =>
        constructor
        · simp only [stepStmt, rhsTaintPath, hv]
          refine insertTaint_pathsIn hst nm (p ++ [line]) ?_
          intro sp hsp
          rcases List.mem_append.1 hsp with hsp' | hsp'
          · exact firstPiecePath_pathsIn hst ps p hv sp hsp'
          · rw [List.mem_singleton.1 hsp']
            exact hline
        · simp [stepStmt, rhsTaintPath, hv]
      | none =>
        refine ⟨by simpa [stepStmt, rhsTaintPath, hv] using hst, ?_⟩
        simp [stepStmt, rhsTaintPath, hv]
  | exprStmt e line =>
    cases e with
    | call fn args =>
      refine ⟨by simpa [stepStmt] using hst, ?_⟩
      simp only [stepStmt]
      exact sinkFindings_pathsIn hst cfg file fn args line hline
    | strLit v => exact ⟨by simpa [stepStmt] using hst, by simp [stepStmt]⟩
    | var n2 => exact ⟨by simpa [stepStmt] using hst, by simp [stepStmt]⟩
    | interp ps => exact ⟨by simpa [stepStmt] using hst, by simp [stepStmt]⟩

/-- A whole run over a scope's statements preserves the span bound and
emits only Findings whose paths respect it. -/
theorem runStmts_pathsIn {L : List Nat} (cfg : Config) (file : String) :
    ∀ (stmts : List Stmt) (st : TaintState), pathsIn L st →
      (∀ s ∈ stmts, s.line ∈ L) →
      pathsIn L (runStmts cfg file st stmts).1 ∧
        ∀ f ∈ (runStmts cfg file st stmts).2, ∀ sp ∈ f.path, sp ∈ L := by
  intro stmts
  induction stmts with
  | nil =>
    intro st hst _
    exact ⟨by simpa [runStmts] using hst, by simp [runStmts]⟩
  | cons s rest ih =>
    intro st hst hlines
    have hstep := stepStmt_pathsIn hst cfg file s (hlines s (List.mem_cons_self _ _))
    have hrest := ih (stepStmt cfg file st s).1 hstep.1
      (fun s' hs' => hlines s' (List.mem_cons_of_mem _ hs'))
    constructor
    · rw [runStmts]
      exact hrest.1
    · rw [runStmts]
      intro f hf
      rcases List.mem_append.1 hf with hf' | hf'
      · exact hstep.2 f hf'
      · exact hrest.2 f hf'

/-- The seeded parameter table only records parameter declaration spans. -/
theorem initState_pathsIn {L : List Nat} (cfg : Config) :
    ∀ (params : List (String × Nat)) (st : TaintState), pathsIn L st →
      (∀ pr ∈ params, pr.2 ∈ L) →
      pathsIn L (params.foldl (fun st pr => if isUntrustedName cfg pr.1 then insertTaint pr.1 [pr.2] st else st) st) := by
  intro params
  induction params with
  | nil =>
    intro st hst _
    simpa using hst
  | cons pr rest ih =>
    intro st hst hmem
    rw [List.foldl_cons]
    refine ih _ ?_ (fun q hq => hmem q (List.mem_cons_of_mem _ hq))
    by_cases hu : isUntrustedName cfg pr.1
    · rw [if_pos hu]
      refine insertTaint_pathsIn hst pr.1 [pr.2] ?_
      intro sp hsp
      rw [List.mem_singleton.1 hsp]
      exact hmem pr (List.mem_cons_self _ _)
    · rw [if_neg hu]
      exact hst

/-- C4: the taint analysis is intraprocedural — every span on the taint
path of every Finding produced by analysing one function lies inside that
function (a parameter declaration line or a body statement line); no call
propagates taint into or out of a separately-defined function body. -/
theorem taint_path_intraprocedural (cfg : Config) (file : String) (fd : FuncDef)
    (f : Finding) (hf : f ∈ analyzeFunc cfg file fd) :
    ∀ sp ∈ f.path, sp ∈ funcLines fd := by
  have hinit : pathsIn (funcLines fd) (initState cfg fd.params) := by
    refine initState_pathsIn cfg fd.params [] (by intro pr hpr; simp at hpr) ?_
    intro pr hpr
    exact List.mem_append_left _ (List.mem_map_of_mem Prod.snd hpr)
  have hrun := runStmts_pathsIn cfg file fd.body (initState cfg fd.params) hinit ?_
  · exact hrun.2 f hf
  · intro s hs
    exact List.mem_append_right _ (List.mem_map_of_mem Stmt.line hs)

/-- Witness for C4 at a concrete function and Finding. -/
theorem taint_path_intraprocedural_witness :
    (⟨"TC-TOOL-EXEC", .toolExec, .critical, "w.py", 3, [1, 2, 3]⟩ : Finding) ∈
        analyzeFunc stdConfig "w.py"
          ⟨"g", [("user_q", 1)],
            [ .assign "y" (.interp [ .ref "user_q"]) 2,
              .exprStmt (.call "eval" [ .avar "y"]) 3]⟩ ∧
      ∀ sp ∈ ([1, 2, 3] : List Nat), sp ∈ funcLines
          ⟨"g", [("user_q", 1)],
            [ .assign "y" (.interp [ .ref "user_q"]) 2,
              .exprStmt (.call "eval" [ .avar "y"]) 3]⟩ :=
  ⟨by decide,
    taint_path_intraprocedural stdConfig "w.py"
      ⟨"g", [("user_q", 1)],
        [ .assign "y" (.interp [ .ref "user_q"]) 2,
          .exprStmt (.call "eval" [ .avar "y"]) 3]⟩
      ⟨"TC-TOOL-EXEC", .toolExec, .critical, "w.py", 3, [1, 2, 3]⟩ (by decide)⟩

/-- C5: a unit whose single function has a tainted parameter `user_input`,
an assignment `prompt = f"...{user_input}..."` and a following call whose
content argument is `prompt` to the prompt-content sink, produces exactly
one Finding — of `injection` category, with a taint path of length 3:
the parameter declaration span, the interpolation-assignment span and the
sink-call span.  The surrounding literal chunks, names and line numbers
are arbitrary. -/
theorem injection_scenario (file fname rname : String) (a b : Str) (l1 l2 l3 : Nat) :
    scanUnit stdConfig file
        ⟨[], [⟨fname, [("user_input", l1)],
          [ .assign "prompt" (.interp [ .lit a, .ref "user_input", .lit b]) l2,
            .assign rname (.call "openai.ChatCompletion.create" [ .avar "prompt"]) l3]⟩]⟩
      = [⟨"TC-INJECTION", .injection, .critical, file, l3, [l1, l2, l3]⟩] := by
  rfl

/-- C6: a module-scope assignment of a string literal beginning with the
known provider prefix `sk-proj-` followed by at least 20 key characters
makes the Secret Scanner produce exactly one `secret` Finding for that
literal — matched by the prefix-signature rule, not additionally by the
entropy rule, whatever the configured entropy bound and the assigned
name. -/
theorem secret_prefix_scenario (cfg : Config) (file name : String) (line : Nat) (tail : Str)
    (hcat : cfg.secretCatalog = stdConfig.secretCatalog)
    (hlen : 20 ≤ tail.length) (hkey : tail.all isKeyChar = true) :
    secretScan cfg file [ .assign name (.strLit ("sk-proj-".toList ++ tail)) line]
      = [⟨"TC001-OPENAI-PROJECT-KEY", .secret, .critical, file, line, []⟩] := by
  have hpre : ("sk-proj-".toList).isPrefixOf ("sk-proj-".toList ++ tail) = true :=
    (List.isPrefixOf_iff_prefix).2 (List.prefix_append _ _)
  have hdrop : ("sk-proj-".toList ++ tail).drop (("sk-proj-".toList).length) = tail :=
    List.drop_left _ _
  rw [secretScan, secretScan, List.append_nil, checkLiteral, hcat]
  rw [show stdConfig.secretCatalog
      = [("TC001-OPENAI-PROJECT-KEY", "sk-proj-".toList), ("TC002-ANTHROPIC-KEY", "sk-ant-".toList), ("TC003-OPENAI-KEY", "sk-".toList)] from rfl]
  rw [prefixHit, if_pos ⟨hpre, by rw [hdrop]; exact hlen, by rw [hdrop]; exact hkey⟩]

/-- Witness for C6 at the fixture key of
`src/examples/threat_vectors_python.py`, line 17. -/
theorem secret_prefix_scenario_witness :
    (stdConfig.secretCatalog = stdConfig.secretCatalog ∧
        20 ≤ ("abc123def456ghi789jkl012mno345pqr678stu901vwx234yz".toList : Str).length ∧
        ("abc123def456ghi789jkl012mno345pqr678stu901vwx234yz".toList : Str).all isKeyChar = true) ∧
      secretScan stdConfig "src/examples/threat_vectors_python.py"
          [ .assign "openai.api_key"
            (.strLit ("sk-proj-".toList ++ "abc123def456ghi789jkl012mno345pqr678stu901vwx234yz".toList)) 17]
        = [⟨"TC001-OPENAI-PROJECT-KEY", .secret, .critical, "src/examples/threat_vectors_python.py", 17, []⟩] :=
  ⟨⟨rfl, by decide, by decide⟩,
    secret_prefix_scenario stdConfig "src/examples/threat_vectors_python.py" "openai.api_key" 17
      ("abc123def456ghi789jkl012mno345pqr678stu901vwx234yz".toList) rfl (by decide) (by decide)⟩

/-- C7: one malformed file in a batch yields for that file a result marked
not fully scanned with the ParseError (reason and location) as diagnostic
and no silent effect on anyone else: the batch result is the per-file
results of the files before it, that diagnostic result, and the per-file
results of the files after it — and the batch without the failing file
yields exactly those same per-file results for the other files. -/
theorem batch_partial_failure (cfg : Config) (pre post : List (String × Str))
    (path : String) (text : Str) (e : ParseError)
    (herr : parseUnit text = Except.error e) :
    scanBatch cfg (pre ++ (path, text) :: post)
        = scanBatch cfg pre ++ ⟨path, [], false, [e]⟩ :: scanBatch cfg post
      ∧ scanBatch cfg (pre ++ post) = scanBatch cfg pre ++ scanBatch cfg post := by
  constructor
  · simp [scanBatch, List.map_append, scanFile, herr]
  · simp [scanBatch, List.map_append]

/-- Witness for C7: a concrete batch of two well-formed files around one
malformed file. -/
theorem batch_partial_failure_witness :
    parseUnit ("???".toList) = Except.error ⟨"unrecognized statement", 1⟩ ∧
      (scanBatch stdConfig
            [("good1.py", "x = input()".toList), ("bad.py", "???".toList), ("good2.py", "def g(user_q):\n    eval(user_q)".toList)]
          = scanBatch stdConfig [("good1.py", "x = input()".toList)]
              ++ (⟨"bad.py", [], false, [⟨"unrecognized statement", 1⟩]⟩ : FileResult)
                :: scanBatch stdConfig [("good2.py", "def g(user_q):\n    eval(user_q)".toList)]
        ∧ scanBatch stdConfig
            [("good1.py", "x = input()".toList), ("good2.py", "def g(user_q):\n    eval(user_q)".toList)]
          = scanBatch stdConfig [("good1.py", "x = input()".toList)]
              ++ scanBatch stdConfig [("good2.py", "def g(user_q):\n    eval(user_q)".toList)]) :=
  ⟨by decide,
    batch_partial_failure stdConfig
      [("good1.py", "x = input()".toList)]
      [("good2.py", "def g(user_q):\n    eval(user_q)".toList)]
      "bad.py" ("???".toList) ⟨"unrecognized statement", 1⟩ (by decide)⟩

end TensorClad

